import Mathlib

/-!
Verification development for the docx-you-want package assembler
(src/src/lib.rs, src/src/main.rs).

Modelling conventions:
* Rust `f64` pixel measurements are embedded as exact rationals `ℚ`;
  the arithmetic in `px_to_emu` / `px_to_twenties_of_pt` is plain
  field arithmetic, and the final `as i32` cast is truncation toward
  zero with saturation at the `i32` bounds, as Rust defines it.
* Rust strings are embedded as Lean `String`s; `str::replace`
  (leftmost, non-overlapping, replace every occurrence) is embedded as
  a fuel-indexed structural scan `replaceAllGo`.
* File-system and process effects are abstracted: functions receive the
  file content or the subprocess outcomes they depend on as arguments.
-/

namespace Dyw

/-- The error enum of src/src/lib.rs (`Error`). -/
inductive Error where
  | IoError
  | ImageError
  | InkscapeNotFound
  | PDFInvalid
deriving DecidableEq, Repr

/-- Truncation of a rational toward zero, the rounding mode of the Rust
`as i32` cast applied to an `f64`.  For negative `q`, `-⌊-q⌋ = ⌈q⌉` is the
value of `q` rounded toward zero. -/
def ratTrunc (q : ℚ) : ℤ :=
  if 0 ≤ q then ⌊q⌋ else -⌊-q⌋

/-- Saturation of an integer to the `i32` range, the clamping behaviour of
the Rust `as i32` cast applied to an out-of-range `f64`. -/
def i32Sat (z : ℤ) : ℤ :=
  if z < -(2 ^ 31) then -(2 ^ 31) else if 2 ^ 31 - 1 < z then 2 ^ 31 - 1 else z

/-- `px_to_emu` from src/src/lib.rs lines 61-65:
`(px / 96.0 * 914400.0) as i32`. -/
def px_to_emu (px : ℚ) : ℤ :=
  i32Sat (ratTrunc (px / 96 * 914400))

/-- `px_to_twenties_of_pt` from src/src/lib.rs lines 67-71:
`(px / 96.0 * 72.0 * 20.0) as i32`. -/
def px_to_twenties_of_pt (px : ℚ) : ℤ :=
  i32Sat (ratTrunc (px / 96 * 72 * 20))

/-- If `pat` is a leading pattern of `s`, return the remainder of `s` after
`pat`; otherwise `none`.  Helper for the scan of `str::replace`. -/
def dropPat : List Char → List Char → Option (List Char)
  | [], s => some s
  | _ :: _, [] => none
  | c :: p, d :: s => if c = d then dropPat p s else none

/-- Fuel-indexed scan embedding Rust `str::replace`: walk `s` left to right;
at each position, if `pat` matches there, emit `rep` and resume after the
match, otherwise copy one character.  With `fuel ≥ s.length` and a nonempty
`pat` this is exactly the leftmost, non-overlapping, replace-every-occurrence
semantics of `str::replace`. -/
def replaceAllGo (pat rep : List Char) : ℕ → List Char → List Char
  | _, [] => []
  | 0, s => s
  | fuel + 1, c :: s =>
    match dropPat pat (c :: s) with
    | some rest => rep ++ replaceAllGo pat rep fuel rest
    | none => c :: replaceAllGo pat rep fuel s

/-- Boolean occurrence test matching the scan of `replaceAllGo`. -/
def occursGo (pat : List Char) : ℕ → List Char → Bool
  | _, [] => decide (pat = [])
  | 0, _ => false
  | fuel + 1, c :: s => (dropPat pat (c :: s)).isSome || occursGo pat fuel s

/-- Rust `s.replace(pat, rep)` on `String`s. -/
def replaceAll (s pat rep : String) : String :=
  ⟨replaceAllGo pat.data rep.data s.data.length s.data⟩

/-- Whether `pat` occurs as a substring of `s` (at a position the scan of
`replaceAllGo` would find). -/
def occursIn (s pat : String) : Bool :=
  occursGo pat.data s.data.length s.data

/-- `get_png_path` from src/src/lib.rs lines 91-99: take the file name of the
svg path (`Option String` embeds the `OsStr` that may fail Unicode
conversion, in which case the source returns `Error::IoError`), replace every
occurrence of `"svg"` by `"png"`, and join it to `pre` (path join is
embedded as joining with a slash). -/
def get_png_path (pre : String) (svgFileName : Option String) :
    Except Error String :=
  match svgFileName with
  | none => .error .IoError
  | some f =>
    let filename := replaceAll f "svg" "png"
    .ok (pre ++ "/" ++ filename)

/-- `insert_in_file` from src/src/lib.rs lines 277-281, with the file system
abstracted away: the first argument is the content read from the file, the
returned string is the content written back.  The source performs
`read_to_string(path)?.replace("!INSERT_HERE!", content)` and always
succeeds once the file has been read. -/
def insert_in_file (fileContent content : String) : Except Error String :=
  .ok (replaceAll fileContent "!INSERT_HERE!" content)

/-- One page block of `doc_string`, built by `Docx::add_to_doc`
(src/src/lib.rs lines 170-237).  The XML template is constant text apart
from its substitution points, so the accumulated `doc_string` is embedded as
the ordered list of the substitution records of its page blocks. -/
structure PageBlock where
  /-- `wp:docPr id=` and `name=`, set from the svg identifier. -/
  docPrId : ℤ
  /-- `asvg:svgBlip r:embed=`, rendered as `rId` followed by the number. -/
  svgRelId : ℤ
  /-- `a:blip r:embed=`, rendered as `rId` followed by the number. -/
  pngRelId : ℤ
  /-- `wp:extent cx=` (the inline extent). -/
  inlineCx : ℤ
  /-- `wp:extent cy=` (the inline extent). -/
  inlineCy : ℤ
  /-- `a:xfrm / a:ext cx=` (the shape extent). -/
  shapeCx : ℤ
  /-- `a:xfrm / a:ext cy=` (the shape extent). -/
  shapeCy : ℤ
deriving DecidableEq, Repr

/-- One entry of `rels_string`, built by `Docx::add_relationship`
(src/src/lib.rs lines 239-248).  The source receives the identifier already
rendered as `rId` plus the number; the model stores the number and renders
it in `relString`. -/
structure Rel where
  rid : ℤ
  filename : String
deriving DecidableEq, Repr

/-- The rendering `format!("rId{}", id)` used by `Docx::add_to_doc`. -/
def ridString (n : ℤ) : String :=
  "rId" ++ toString n

/-- The XML text appended by `Docx::add_relationship` for one entry: a
self-closing `Relationship` declaration carrying the identifier, the OOXML
image relationship type, and the target `media/` plus the file name. -/
def relString (r : Rel) : String :=
  "<Relationship Id=\"" ++ ridString r.rid ++
    "\" Type=\"http://schemas.openxmlformats.org/officeDocument/2006/relationships/image\" Target=\"media/" ++
    r.filename ++ "\"/>"

/-- The accumulated `rels_string`: concatenation of the entries in
insertion order, mirroring the repeated
`rels_string = format!(..., rels_string, new_entry)`. -/
def relsString : List Rel → String
  | [] => ""
  | r :: rs => relString r ++ relsString rs

/-- Reduction of an integer to the `i32` range by two's-complement
wrap-around, the behaviour of `i32` addition in a Rust release build
(overflow checks off). -/
def wrap32 (z : ℤ) : ℤ :=
  (z + 2 ^ 31) % 2 ^ 32 - 2 ^ 31

/-- The fields of `struct Docx` (src/src/lib.rs lines 101-110) that carry
build state: the identifier counter `next_id` (an `i32`; every value stored
here is the two's-complement reduction of the increments performed on it),
the accumulated content (`doc_string`, as its list of page blocks), the
accumulated relationship index (`rels_string`, as its list of entries), and
`size` (a `usvg::Size`, embedded as a pair of rationals).  The temporary
directory and the four path fields are file-system plumbing and are
abstracted away. -/
structure DocxState where
  nextId : ℤ
  doc : List PageBlock
  rels : List Rel
  size : ℚ × ℚ
deriving DecidableEq, Repr

/-- `Docx::new` (src/src/lib.rs lines 113-136), file-system setup
abstracted: counter 0, empty content and relationship accumulators, and the
default size `usvg::Size::new(793.707, 1122.52)`. -/
def Docx.new : DocxState :=
  { nextId := 0, doc := [], rels := [], size := (793707 / 1000, 112252 / 100) }

/-- `Docx::next_id` (src/src/lib.rs lines 164-168): return the current
counter value, then increment the `i32` counter.  The increment follows the
release-build semantics of `self.next_id += 1`: two's-complement
wrap-around at the `i32` bound (a debug build would panic there instead). -/
def Docx.next_id (st : DocxState) : ℤ × DocxState :=
  (st.nextId, { st with nextId := wrap32 (st.nextId + 1) })

/-- `Docx::add_relationship` (src/src/lib.rs lines 239-248): append one
relationship entry whose target is `media/` plus the file name. -/
def Docx.add_relationship (st : DocxState) (rid : ℤ) (filename : String) : DocxState :=
  { st with rels := st.rels ++ [⟨rid, filename⟩] }

/-- `Docx::add_to_doc` (src/src/lib.rs lines 170-237): draw two identifiers
(svg first, then png), convert the pixel size to drawing units once into
`width` and `height`, append one page block whose inline extent and shape
extent both use that `width`/`height`, then register the svg relationship
followed by the png relationship.  `svgName`/`pngName` are the file names of
the two assets (the source passes paths and takes their final component via
`get_filename`). -/
def Docx.add_to_doc (st : DocxState) (svgName pngName : String) (size : ℚ × ℚ) :
    DocxState :=
  let (svg_id, st1) := Docx.next_id st
  let (png_id, st2) := Docx.next_id st1
  let width := px_to_emu size.1
  let height := px_to_emu size.2
  let st3 := { st2 with
    doc := st2.doc ++ [{ docPrId := svg_id, svgRelId := svg_id, pngRelId := png_id,
                         inlineCx := width, inlineCy := height,
                         shapeCx := width, shapeCy := height }] }
  let st4 := Docx.add_relationship st3 svg_id svgName
  Docx.add_relationship st4 png_id pngName

/-- One successfully registered page: the file name of its vector asset and
its intrinsic pixel size. -/
structure PageInput where
  svgName : String
  width : ℚ
  height : ℚ
deriving DecidableEq, Repr

/-- `Docx::add_image_svg` (src/src/lib.rs lines 148-162) for a page that
registers successfully: the raster sibling name is derived by
`get_png_path` (replace every `svg` by `png` in the file name), and
`add_to_doc` is called with the two names and the intrinsic size.  Reading,
rendering and copying the assets are file-system effects abstracted away. -/
def Docx.add_image_svg (st : DocxState) (p : PageInput) : DocxState :=
  Docx.add_to_doc st p.svgName (replaceAll p.svgName "svg" "png") (p.width, p.height)

/-- Registration of a whole sequence of pages, in order. -/
def processPages (st : DocxState) (ps : List PageInput) : DocxState :=
  ps.foldl Docx.add_image_svg st

/-- `Docx::change_size` (src/src/lib.rs lines 263-275), file system
abstracted: take the current content of `word/document.xml`, replace the
`!WIDTH!` token by the page-unit conversion of the stored width, then
replace the `!HEIGHT!` token by the page-unit conversion of the stored
height. -/
def Docx.change_size (st : DocxState) (docContent : String) : String :=
  replaceAll
    (replaceAll docContent "!WIDTH!" (toString (px_to_twenties_of_pt st.size.1)))
    "!HEIGHT!" (toString (px_to_twenties_of_pt st.size.2))

/-- Outcome of one invocation of the external extraction tool in the loop of
`Docx::convert_pdf` (src/src/lib.rs lines 287-316). -/
inductive PageResult where
  /-- The tool ran and its diagnostic stream (`stderr`) is empty: the page
  was extracted. -/
  | ok
  /-- The tool ran with a non-empty diagnostic stream: the source treats
  this as page exhaustion. -/
  | softFail
  /-- Spawning the tool failed with `ErrorKind::NotFound`. -/
  | notFound
  /-- Spawning the tool failed with any other error kind. -/
  | otherErr
deriving DecidableEq, Repr

/-- The extraction loop of `Docx::convert_pdf`, driven by the trace of tool
outcomes for pages `page`, `page + 1`, ...: collect the extracted page
numbers until the first soft failure, abort on a spawn failure.  `none`
means the modelled trace ended before the loop stopped (the real loop would
keep probing further pages). -/
def extractLoop : List PageResult → ℕ → Option (Except Error (List ℕ))
  | [], _ => none
  | .ok :: rest, page =>
    match extractLoop rest (page + 1) with
    | none => none
    | some (.error e) => some (.error e)
    | some (.ok l) => some (.ok (page :: l))
  | .softFail :: _, _ => some (.ok [])
  | .notFound :: _, _ => some (.error .InkscapeNotFound)
  | .otherErr :: _, _ => some (.error .IoError)

/-- The extraction phase of `Docx::convert_pdf` (src/src/lib.rs lines
283-318): run the loop starting at page 1; if it stops with zero extracted
pages, `images.get(0).ok_or(Error::PDFInvalid)` fails. -/
def convert_pdf_extract (trace : List PageResult) : Option (Except Error (List ℕ)) :=
  match extractLoop trace 1 with
  | none => none
  | some (.error e) => some (.error e)
  | some (.ok []) => some (.error .PDFInvalid)
  | some (.ok l) => some (.ok l)

/-- The post-extraction phase of `Docx::convert_pdf` (src/src/lib.rs lines
317-324): if no page was extracted, fail with `Error::PDFInvalid`;
otherwise store the intrinsic size of the first extracted page in `size`
and register every extracted page in order. -/
def convert_pdf_register (st : DocxState) (pages : List PageInput) :
    Except Error DocxState :=
  match pages with
  | [] => .error .PDFInvalid
  | p :: _ => .ok (processPages { st with size := (p.width, p.height) } pages)

/-- The four fixed diagnostic messages of src/src/main.rs lines 36-41. -/
def errorMsg : Error → String
  | .IoError => "An error occurred during I/O."
  | .ImageError => "Something went wrong while processing the images."
  | .InkscapeNotFound => "Inkscape not found. Consider installing inkscape?"
  | .PDFInvalid => "Invalid PDF."

/-- Observable outcome of `main` (src/src/main.rs lines 24-45): the usage
message printed to standard output followed by `exit` with the given code,
or a diagnostic printed to standard error followed by `exit` with the given
code, or normal completion. -/
inductive MainOutcome where
  | usage (exitCode : ℤ) (msg : String)
  | fail (exitCode : ℤ) (msg : String)
  | success
deriving DecidableEq, Repr

/-- The usage line printed by src/src/main.rs lines 27-30. -/
def usageMsg (prog : String) : String :=
  "Usage: " ++ prog ++ " <path to PDF> <path to result DOCX file>"

/-- `main` from src/src/main.rs lines 24-45: with an argument vector of
length other than 3 (program name plus two positional arguments), print the
usage message and `exit(-1)` without running the conversion; otherwise run
the conversion (its result is the parameter `conv`) and on error print the
fixed message for its kind to standard error and `exit(-1)`. -/
def mainModel (args : List String) (conv : Except Error Unit) : MainOutcome :=
  if args.length ≠ 3 then .usage (-1) (usageMsg (args.headD ""))
  else
    match conv with
    | .error e => .fail (-1) (errorMsg e)
    | .ok _ => .success

/-- Spec-side characterization of the page blocks produced by registering
the pages `ps` when the `i32` identifier counter holds `n`: per page the
vector identifier is the current counter and the raster identifier the
wrapping increment of it. -/
def blocksSpec : ℤ → List PageInput → List PageBlock
  | _, [] => []
  | n, p :: ps =>
    { docPrId := n, svgRelId := n, pngRelId := wrap32 (n + 1),
      inlineCx := px_to_emu p.width, inlineCy := px_to_emu p.height,
      shapeCx := px_to_emu p.width, shapeCy := px_to_emu p.height } ::
      blocksSpec (wrap32 (wrap32 (n + 1) + 1)) ps

/-- Spec-side characterization of the relationship entries produced by
registering the pages `ps` when the `i32` identifier counter holds `n`:
per page, the vector entry immediately followed by the raster entry. -/
def relsSpec : ℤ → List PageInput → List Rel
  | _, [] => []
  | n, p :: ps =>
    ⟨n, p.svgName⟩ :: ⟨wrap32 (n + 1), replaceAll p.svgName "svg" "png"⟩ ::
      relsSpec (wrap32 (wrap32 (n + 1) + 1)) ps

/-- Spec-side characterization of the accumulated relationship string:
per page, the vector declaration immediately followed by the raster
declaration. -/
def relsStringSpec : ℤ → List PageInput → String
  | _, [] => ""
  | n, p :: ps =>
    relString ⟨n, p.svgName⟩ ++
      relString ⟨wrap32 (n + 1), replaceAll p.svgName "svg" "png"⟩ ++
      relsStringSpec (wrap32 (wrap32 (n + 1) + 1)) ps

/-- The value of the `i32` identifier counter after registering `k` pages,
starting from `n`: two wrapping increments per page. -/
def advancePages : ℤ → ℕ → ℤ
  | n, 0 => n
  | n, k + 1 => advancePages (wrap32 (wrap32 (n + 1) + 1)) k

/-- The page blocks produced by registering `ps` from counter `n` in the
overflow-free regime, where the two identifiers of each page are `n` and
`n + 1` with no wrap-around.  `blocksSpec` coincides with this list as long
as the counter stays inside the `i32` range. -/
def blocksSpecU : ℤ → List PageInput → List PageBlock
  | _, [] => []
  | n, p :: ps =>
    { docPrId := n, svgRelId := n, pngRelId := n + 1,
      inlineCx := px_to_emu p.width, inlineCy := px_to_emu p.height,
      shapeCx := px_to_emu p.width, shapeCy := px_to_emu p.height } ::
      blocksSpecU (n + 2) ps

/-- The reference identifiers embedded in the accumulated content, in
textual order within each page block (`a:blip r:embed` comes before
`asvg:svgBlip r:embed` in the template). -/
def refIds : List PageBlock → List ℤ
  | [] => []
  | b :: bs => b.pngRelId :: b.svgRelId :: refIds bs

/-- The identifiers carried by the relationship entries, in emission
order. -/
def relIds (rels : List Rel) : List ℤ :=
  rels.map Rel.rid

/-- The identifiers of the page blocks in order of assignment (each block
draws its vector identifier first, then its raster identifier). -/
def assignOrder : List PageBlock → List ℤ
  | [] => []
  | b :: bs => b.svgRelId :: b.pngRelId :: assignOrder bs

/-- The list `n, n + 1, ..., n + k - 1`. -/
def intRange (n : ℤ) : ℕ → List ℤ
  | 0 => []
  | k + 1 => n :: intRange (n + 1) k

theorem replaceAllGo_of_not_occursGo (pat rep : List Char) :
    ∀ (fuel : ℕ) (s : List Char), occursGo pat fuel s = false →
      replaceAllGo pat rep fuel s = s := by
  intro fuel
  induction fuel with
  | zero =>
    intro s _
    cases s with
    | nil => rfl
    | cons c s => rfl
  | succ fuel ih =>
    intro s h
    cases s with
    | nil => rfl
    | cons c s =>
      simp only [occursGo, Bool.or_eq_false_iff] at h
      obtain ⟨h1, h2⟩ := h
      have hdrop : dropPat pat (c :: s) = none := by
        cases hd : dropPat pat (c :: s) with
        | none => rfl
        | some rest => rw [hd] at h1; simp at h1
      simp only [replaceAllGo, hdrop]
      rw [ih s h2]

/-- A string in which the pattern does not occur is returned unchanged by
`replaceAll` (the behaviour of Rust `str::replace` with no match). -/
theorem replaceAll_of_not_occursIn (s pat rep : String) (h : occursIn s pat = false) :
    replaceAll s pat rep = s := by
  unfold replaceAll
  rw [replaceAllGo_of_not_occursGo pat.data rep.data s.data.length s.data h]

/-- `wrap32` is the identity on values already inside the `i32` range. -/
theorem wrap32_eq_self (z : ℤ) (h1 : -(2 ^ 31) ≤ z) (h2 : z < 2 ^ 31) :
    wrap32 z = z := by
  unfold wrap32
  rw [Int.emod_eq_of_lt (by omega) (by omega)]
  omega

/-- Master characterization of page registration: folding
`Docx::add_image_svg` over a page list performs two wrapping counter
increments per page, appends the spec-side page blocks to the content
accumulator and the spec-side entries to the relationship accumulator, and
leaves `size` untouched. -/
theorem processPages_spec (ps : List PageInput) : ∀ st : DocxState,
    processPages st ps =
      { nextId := advancePages st.nextId ps.length,
        doc := st.doc ++ blocksSpec st.nextId ps,
        rels := st.rels ++ relsSpec st.nextId ps,
        size := st.size } := by
  induction ps with
  | nil =>
    intro st
    simp [processPages, blocksSpec, relsSpec, advancePages]
  | cons p ps ih =>
    intro st
    show processPages (Docx.add_image_svg st p) ps = _
    rw [ih]
    simp only [Docx.add_image_svg, Docx.add_to_doc, Docx.next_id,
      Docx.add_relationship, blocksSpec, relsSpec, List.length_cons, advancePages]
    refine DocxState.mk.injEq .. ▸ ⟨rfl, ?_, ?_, rfl⟩
    · simp [List.append_assoc]
    · simp [List.append_assoc]

theorem processPages_nextId (ps : List PageInput) (st : DocxState) :
    (processPages st ps).nextId = advancePages st.nextId ps.length := by
  rw [processPages_spec ps st]

theorem processPages_doc (ps : List PageInput) (st : DocxState) :
    (processPages st ps).doc = st.doc ++ blocksSpec st.nextId ps := by
  rw [processPages_spec ps st]

theorem mem_refIds_iff_mem_relIds (ps : List PageInput) : ∀ (n x : ℤ),
    x ∈ refIds (blocksSpec n ps) ↔ x ∈ relIds (relsSpec n ps) := by
  induction ps with
  | nil => intro n x; simp [blocksSpec, relsSpec, refIds, relIds]
  | cons p ps ih =>
    intro n x
    simp only [blocksSpec, relsSpec, refIds, relIds, List.map_cons, List.mem_cons]
    rw [show (relsSpec (wrap32 (wrap32 (n + 1) + 1)) ps).map Rel.rid =
        relIds (relsSpec (wrap32 (wrap32 (n + 1) + 1)) ps) from rfl,
      ← ih (wrap32 (wrap32 (n + 1) + 1)) x]
    tauto

theorem assignOrder_blocksSpecU (ps : List PageInput) : ∀ n : ℤ,
    assignOrder (blocksSpecU n ps) = intRange n (2 * ps.length) := by
  induction ps with
  | nil => intro n; simp [blocksSpecU, assignOrder, intRange]
  | cons p ps ih =>
    intro n
    have hlen : 2 * (p :: ps).length = 2 * ps.length + 1 + 1 := by
      simp [List.length_cons]; ring
    rw [hlen]
    simp only [blocksSpecU, assignOrder, intRange, ih (n + 2)]
    rw [show n + 1 + 1 = n + 2 from by ring]

theorem intRange_chain (k : ℕ) : ∀ n : ℤ, List.Chain' (· < ·) (intRange n k) := by
  induction k with
  | zero => intro n; simp [intRange]
  | succ k ih =>
    intro n
    rw [intRange, List.chain'_cons']
    refine ⟨?_, ih (n + 1)⟩
    intro y hy
    cases k with
    | zero => simp [intRange] at hy
    | succ k =>
      simp only [intRange, List.head?_cons, Option.mem_def, Option.some.injEq] at hy
      omega

theorem blocksSpec_length (ps : List PageInput) : ∀ n : ℤ,
    (blocksSpec n ps).length = ps.length := by
  induction ps with
  | nil => intro n; rfl
  | cons p ps ih =>
    intro n
    simp [blocksSpec, ih (wrap32 (wrap32 (n + 1) + 1))]

theorem blocksSpecU_length (ps : List PageInput) : ∀ n : ℤ,
    (blocksSpecU n ps).length = ps.length := by
  induction ps with
  | nil => intro n; rfl
  | cons p ps ih => intro n; simp [blocksSpecU, ih (n + 2)]

theorem blocksSpecU_map_diff (ps : List PageInput) : ∀ n : ℤ,
    ((blocksSpecU n ps).map fun b => b.pngRelId - b.svgRelId) =
      List.replicate ps.length 1 := by
  induction ps with
  | nil => intro n; rfl
  | cons p ps ih =>
    intro n
    simp only [blocksSpecU, List.map_cons, List.length_cons, List.replicate_succ,
      ih (n + 2)]
    congr 1
    ring

theorem relsString_relsSpec (ps : List PageInput) : ∀ n : ℤ,
    relsString (relsSpec n ps) = relsStringSpec n ps := by
  induction ps with
  | nil => intro n; rfl
  | cons p ps ih =>
    intro n
    simp only [relsSpec, relsString, relsStringSpec, ih (wrap32 (wrap32 (n + 1) + 1))]
    rw [String.append_assoc]

/-- In the overflow-free regime — counter in range and at most `2 ^ 31`
allocations remaining — the wrapping spec-side blocks coincide with the
unwrapped ones: no identifier wraps. -/
theorem blocksSpec_eq_unwrapped (ps : List PageInput) : ∀ n : ℤ,
    -(2 ^ 31) ≤ n → n < 2 ^ 31 → n + 2 * (ps.length : ℤ) ≤ 2 ^ 31 →
    blocksSpec n ps = blocksSpecU n ps := by
  induction ps with
  | nil => intro n _ _ _; rfl
  | cons p ps ih =>
    intro n h1 h2 h3
    simp only [List.length_cons] at h3
    push_cast at h3
    have hw1 : wrap32 (n + 1) = n + 1 := by
      refine wrap32_eq_self _ (by omega) (by omega)
    rw [blocksSpec, blocksSpecU, hw1]
    cases ps with
    | nil => rfl
    | cons q qs =>
      have hlen2 : ((q :: qs).length : ℤ) = (qs.length : ℤ) + 1 := by
        push_cast [List.length_cons]
        ring
      have hw2 : wrap32 (n + 1 + 1) = n + 1 + 1 := by
        refine wrap32_eq_self _ (by omega) (by omega)
      rw [hw2, show n + 1 + 1 = n + 2 from by ring]
      rw [ih (n + 2) (by omega) (by omega) (by omega)]

/-- In the overflow-free regime the counter after `k` registered pages is
the wrap of `n + 2 * k` (at most the final increment can wrap). -/
theorem advancePages_no_wrap (k : ℕ) : ∀ n : ℤ,
    -(2 ^ 31) ≤ n → n < 2 ^ 31 → n + 2 * (k : ℤ) ≤ 2 ^ 31 →
    advancePages n k = wrap32 (n + 2 * (k : ℤ)) := by
  induction k with
  | zero =>
    intro n h1 h2 _
    show n = wrap32 (n + 2 * ((0 : ℕ) : ℤ))
    rw [show n + 2 * ((0 : ℕ) : ℤ) = n from by push_cast; ring, wrap32_eq_self n h1 h2]
  | succ k ih =>
    intro n h1 h2 h3
    push_cast at h3
    have hw1 : wrap32 (n + 1) = n + 1 := by
      refine wrap32_eq_self _ (by omega) (by omega)
    rw [advancePages, hw1]
    rcases Nat.eq_zero_or_pos k with hk | hk
    · subst hk
      show wrap32 (n + 1 + 1) = _
      congr 1
      push_cast
      ring
    · have hkz : (1 : ℤ) ≤ (k : ℤ) := by exact_mod_cast hk
      have hw2 : wrap32 (n + 1 + 1) = n + 1 + 1 := by
        refine wrap32_eq_self _ (by omega) (by omega)
      rw [hw2, show n + 1 + 1 = n + 2 from by ring,
        ih (n + 2) (by omega) (by omega) (by omega)]
      congr 1
      push_cast
      ring

theorem assignOrder_append (l₁ l₂ : List PageBlock) :
    assignOrder (l₁ ++ l₂) = assignOrder l₁ ++ assignOrder l₂ := by
  induction l₁ with
  | nil => rfl
  | cons b bs ih => simp [assignOrder, ih]

theorem intRange_getLast (k : ℕ) : ∀ n : ℤ,
    (intRange n (k + 1)).getLast? = some (n + (k : ℤ)) := by
  induction k with
  | zero =>
    intro n
    show (intRange n 1).getLast? = _
    simp [intRange]
  | succ k ih =>
    intro n
    show ((n :: intRange (n + 1) (k + 1)) : List ℤ).getLast? = _
    rw [show intRange (n + 1) (k + 1) = (n + 1) :: intRange (n + 1 + 1) k from rfl,
      List.getLast?_cons_cons, ← show intRange (n + 1) (k + 1) =
        (n + 1) :: intRange (n + 1 + 1) k from rfl, ih (n + 1)]
    congr 1
    push_cast
    ring

theorem extractLoop_ok_softFail (n : ℕ) : ∀ (p : ℕ) (rest : List PageResult),
    extractLoop (List.replicate n .ok ++ .softFail :: rest) p =
      some (.ok (List.range' p n)) := by
  induction n with
  | zero => intro p rest; rfl
  | succ n ih =>
    intro p rest
    rw [List.replicate_succ, List.cons_append]
    simp only [extractLoop, ih (p + 1) rest]
    rw [List.range'_succ]

theorem extractLoop_ok_notFound (n : ℕ) : ∀ (p : ℕ) (rest : List PageResult),
    extractLoop (List.replicate n .ok ++ .notFound :: rest) p =
      some (.error .InkscapeNotFound) := by
  induction n with
  | zero => intro p rest; rfl
  | succ n ih =>
    intro p rest
    rw [List.replicate_succ, List.cons_append]
    simp only [extractLoop, ih (p + 1) rest]

theorem extractLoop_ok_otherErr (n : ℕ) : ∀ (p : ℕ) (rest : List PageResult),
    extractLoop (List.replicate n .ok ++ .otherErr :: rest) p =
      some (.error .IoError) := by
  induction n with
  | zero => intro p rest; rfl
  | succ n ih =>
    intro p rest
    rw [List.replicate_succ, List.cons_append]
    simp only [extractLoop, ih (p + 1) rest]

theorem chain'_lt_range' (n : ℕ) : ∀ s : ℕ, List.Chain' (· < ·) (List.range' s n) := by
  induction n with
  | zero => intro s; simp
  | succ n ih =>
    intro s
    rw [List.range'_succ, List.chain'_cons']
    refine ⟨?_, ih (s + 1)⟩
    intro y hy
    cases n with
    | zero => simp [List.range'] at hy
    | succ n =>
      rw [List.range'_succ] at hy
      simp only [List.head?_cons, Option.mem_def, Option.some.injEq] at hy
      omega

/-- Claim C1: for every sequence of successfully registered pages, the set of
relationship identifiers referenced inside the accumulated content (the
identifiers embedded in each page block through its raster blip and vector
svgBlip references) equals exactly the set of identifiers present in the
accumulated relationship index — every referenced identifier has a
relationship entry and every relationship entry is referenced by some page
block. -/
theorem C1_reference_consistency (ps : List PageInput) (x : ℤ) :
    x ∈ refIds ((processPages Docx.new ps).doc) ↔
      x ∈ relIds ((processPages Docx.new ps).rels) := by
  rw [processPages_spec ps Docx.new]
  simpa [Docx.new] using mem_refIds_iff_mem_relIds ps 0 x

set_option linter.constructorNameAsVariable false in
/-- Claim C2 counterexample: the identifiers are not strictly increasing
across every sequence of page registrations, because the counter is an
`i32`.  Registering 2^30 + 1 pages performs 2^31 + 2 allocations: the first
2^31 yield 0 through 2^31 - 1, and the wrapping increment then hands the
last page the identifiers -2^31 and -2^31 + 1, breaking monotonicity (a
debug build would panic at the overflowing increment instead). -/
theorem C2_cex :
    ¬ List.Chain' (· < ·)
      (assignOrder ((processPages Docx.new
        (List.replicate (2 ^ 30) (⟨"1.svg", 720, 1018⟩ : PageInput) ++
          [⟨"1.svg", 720, 1018⟩])).doc)) := by
  intro hchain
  have hsplit : processPages Docx.new
      (List.replicate (2 ^ 30) (⟨"1.svg", 720, 1018⟩ : PageInput) ++
        [⟨"1.svg", 720, 1018⟩]) =
      processPages
        (processPages Docx.new (List.replicate (2 ^ 30) ⟨"1.svg", 720, 1018⟩))
        [⟨"1.svg", 720, 1018⟩] := by
    simp only [processPages, List.foldl_append]
  rw [hsplit] at hchain
  have hnext1 : (processPages Docx.new
      (List.replicate (2 ^ 30) (⟨"1.svg", 720, 1018⟩ : PageInput))).nextId =
      -(2 ^ 31) := by
    rw [processPages_nextId, List.length_replicate,
      show Docx.new.nextId = 0 from rfl,
      advancePages_no_wrap (2 ^ 30) 0 (by norm_num) (by norm_num) (by norm_num)]
    norm_num [wrap32]
  have hdoc1 : (processPages Docx.new
      (List.replicate (2 ^ 30) (⟨"1.svg", 720, 1018⟩ : PageInput))).doc =
      blocksSpecU 0 (List.replicate (2 ^ 30) ⟨"1.svg", 720, 1018⟩) := by
    rw [processPages_doc, show Docx.new.doc = ([] : List PageBlock) from rfl,
      List.nil_append, show Docx.new.nextId = 0 from rfl]
    refine blocksSpec_eq_unwrapped _ 0 (by norm_num) (by norm_num) ?_
    rw [List.length_replicate]
    norm_num
  have hfinal : assignOrder ((processPages
      (processPages Docx.new (List.replicate (2 ^ 30) ⟨"1.svg", 720, 1018⟩))
      [(⟨"1.svg", 720, 1018⟩ : PageInput)]).doc) =
      intRange 0 (2 ^ 31) ++ [-(2 ^ 31), -(2 ^ 31) + 1] := by
    rw [processPages_doc, hdoc1, hnext1, assignOrder_append,
      assignOrder_blocksSpecU, List.length_replicate,
      show (2 * 2 ^ 30 : ℕ) = 2 ^ 31 from by norm_num]
    refine congrArg (fun l => intRange 0 (2 ^ 31) ++ l) ?_
    show [-(2 ^ 31), wrap32 (-(2 ^ 31) + 1)] = [-(2 ^ 31), -(2 ^ 31) + 1]
    norm_num [wrap32]
  rw [hfinal, List.chain'_append] at hchain
  obtain ⟨-, -, hx⟩ := hchain
  have hlast : (intRange 0 (2 ^ 31)).getLast? = some ((2 : ℤ) ^ 31 - 1) := by
    have h := intRange_getLast (2 ^ 31 - 1) 0
    rw [show (2 ^ 31 - 1 : ℕ) + 1 = 2 ^ 31 from by norm_num] at h
    rw [h]
    norm_num
  have hbad := hx ((2 : ℤ) ^ 31 - 1) (by rw [hlast]; rfl) (-(2 ^ 31)) (by rfl)
  norm_num at hbad

/-- Claim C2 (amended): `next_id` returns the current counter value and
then performs a wrapping `i32` increment, which is an ordinary increment
while the counter stays inside the `i32` range; the counter of a fresh
session starts at 0; and across any sequence of at most 2^30 page
registrations — so that the 2 per-page allocations do not overflow the
counter — the identifiers in assignment order are exactly
`0, 1, ..., 2k - 1`: strictly increasing, one block per page, and within
each block the vector asset holds the lower value and its raster
counterpart the next value.  (Beyond 2^30 pages the counter wraps in a
release build, breaking monotonicity, or panics in a debug build.) -/
theorem C2_identifier_allocation (ps : List PageInput) (hlen : ps.length ≤ 2 ^ 30) :
    (∀ st : DocxState,
      (Docx.next_id st).1 = st.nextId ∧
      (Docx.next_id st).2.nextId = wrap32 (st.nextId + 1) ∧
      (-(2 ^ 31) ≤ st.nextId → st.nextId + 1 < 2 ^ 31 →
        (Docx.next_id st).2.nextId = st.nextId + 1)) ∧
    Docx.new.nextId = 0 ∧
    assignOrder ((processPages Docx.new ps).doc) = intRange 0 (2 * ps.length) ∧
    List.Chain' (· < ·) (assignOrder ((processPages Docx.new ps).doc)) ∧
    ((processPages Docx.new ps).doc).length = ps.length ∧
    (((processPages Docx.new ps).doc).map fun b => b.pngRelId - b.svgRelId) =
      List.replicate ps.length 1 := by
  have hdoc : (processPages Docx.new ps).doc = blocksSpecU 0 ps := by
    rw [processPages_spec ps Docx.new]
    show Docx.new.doc ++ blocksSpec Docx.new.nextId ps = _
    rw [show Docx.new.doc = ([] : List PageBlock) from rfl, List.nil_append,
      show Docx.new.nextId = 0 from rfl]
    refine blocksSpec_eq_unwrapped ps 0 (by norm_num) (by norm_num) ?_
    have hc : (ps.length : ℤ) ≤ 2 ^ 30 := by exact_mod_cast hlen
    omega
  refine ⟨fun st => ⟨rfl, rfl, fun hs1 hs2 => ?_⟩, rfl, ?_, ?_, ?_, ?_⟩
  · show wrap32 (st.nextId + 1) = st.nextId + 1
    exact wrap32_eq_self _ (by omega) hs2
  · rw [hdoc, assignOrder_blocksSpecU]
  · rw [hdoc, assignOrder_blocksSpecU]
    exact intRange_chain (2 * ps.length) 0
  · rw [hdoc]
    exact blocksSpecU_length ps 0
  · rw [hdoc]
    exact blocksSpecU_map_diff ps 0

theorem C2_identifier_allocation_witness :
    ([(⟨"1.svg", 720, 1018⟩ : PageInput), ⟨"2.svg", 100, 200⟩] : List PageInput).length
        ≤ 2 ^ 30 ∧
    assignOrder ((processPages Docx.new
      [(⟨"1.svg", 720, 1018⟩ : PageInput), ⟨"2.svg", 100, 200⟩]).doc) =
      intRange 0 4 := by
  have h := C2_identifier_allocation
    [(⟨"1.svg", 720, 1018⟩ : PageInput), ⟨"2.svg", 100, 200⟩] (by norm_num)
  refine ⟨by norm_num, ?_⟩
  have h2 := h.2.2.1
  simpa using h2

/-- Claim C3 counterexample: splicing content into a file whose placeholder
token occurs zero times succeeds and returns the file unchanged — the
missing placeholder is silently ignored, no error of any kind is raised —
and splicing into a file with two occurrences succeeds and substitutes at
both sites. -/
theorem C3_cex :
    insert_in_file "abc" "X" = .ok "abc" ∧
    (¬ ∃ e : Error, insert_in_file "abc" "X" = .error e) ∧
    insert_in_file "!INSERT_HERE!x!INSERT_HERE!" "Y" = .ok "YxY" := by
  refine ⟨congrArg Except.ok (by decide), ?_, congrArg Except.ok (by decide)⟩
  rintro ⟨e, he⟩
  exact Except.noConfusion ((congrArg Except.ok
    (show replaceAll "abc" "!INSERT_HERE!" "X" = "abc" from by decide)).symm.trans he)

/-- Claim C3 (amended): splicing is an unchecked global substitution — it
always succeeds, replacing the placeholder token at every occurrence of the
scan; in particular a file in which the token does not occur is passed
through unchanged, silently.  No occurrence-count check is performed and no
skeleton-integrity error exists. -/
theorem C3_splice_unchecked (fileContent content : String) :
    insert_in_file fileContent content =
      .ok (replaceAll fileContent "!INSERT_HERE!" content) ∧
    (occursIn fileContent "!INSERT_HERE!" = false →
      insert_in_file fileContent content = .ok fileContent) := by
  refine ⟨rfl, fun h => ?_⟩
  unfold insert_in_file
  rw [replaceAll_of_not_occursIn fileContent "!INSERT_HERE!" content h]

theorem C3_splice_unchecked_witness :
    occursIn "abc" "!INSERT_HERE!" = false ∧ insert_in_file "abc" "X" = .ok "abc" :=
  ⟨by decide, (C3_splice_unchecked "abc" "X").2 (by decide)⟩

/-- Claim C4 counterexample: the conversions do not return the floor at
every pixel input.  At input -1/2 the drawing-unit conversion truncates
toward zero, giving -4762, while the floor is -4763; and at the huge input
2^40 the cast saturates to the largest i32 value 2147483647 while the floor
is 9525 * 2^40. -/
theorem C4_cex :
    (¬ ∀ px : ℚ, px_to_emu px = ⌊px / 96 * 914400⌋) ∧
    px_to_emu (-(1 : ℚ) / 2) = -4762 ∧ ⌊((-(1 : ℚ) / 2) / 96 * 914400)⌋ = -4763 ∧
    px_to_emu (2 ^ 40 : ℚ) = 2147483647 ∧
    ⌊((2 : ℚ) ^ 40 / 96 * 914400)⌋ = 9525 * 2 ^ 40 := by
  have h1 : px_to_emu (-(1 : ℚ) / 2) = -4762 := by
    norm_num [px_to_emu, ratTrunc, i32Sat]
  have h2 : ⌊((-(1 : ℚ) / 2) / 96 * 914400)⌋ = -4763 := by norm_num
  refine ⟨fun h => ?_, h1, h2, ?_, ?_⟩
  · have := (h (-(1 : ℚ) / 2)).symm.trans h1
    rw [h2] at this
    exact absurd this (by norm_num)
  · norm_num [px_to_emu, ratTrunc, i32Sat]
  · norm_num

/-- On a nonnegative rational below `2 ^ 31`, the `as i32` cast is exactly
the floor. -/
theorem i32Sat_ratTrunc_of_nonneg (q : ℚ) (h0 : 0 ≤ q) (h1 : q < 2 ^ 31) :
    i32Sat (ratTrunc q) = ⌊q⌋ := by
  unfold ratTrunc i32Sat
  rw [if_pos h0]
  have hge : (0 : ℤ) ≤ ⌊q⌋ := Int.floor_nonneg.mpr h0
  have hlt : ⌊q⌋ < 2 ^ 31 := by
    rw [Int.floor_lt]
    push_cast
    exact h1
  rw [if_neg (by omega), if_neg (by omega)]

/-- Claim C4 (amended): for every nonnegative pixel input whose exact scaled
values stay below 2^31, the drawing-unit conversion returns
floor(px / 96 * 914400) and the page-unit conversion returns
floor(px / 96 * 72 * 20); on such inputs flooring coincides with the
truncation toward zero the code performs (for negative inputs the code
truncates toward zero instead of flooring, and out-of-range values saturate
at the i32 bounds).  Both conversions are pure and deterministic, and the
page-unit conversion of 793.707 equals 11905. -/
theorem C4_unit_conversions (px : ℚ) (hpx : 0 ≤ px)
    (hemu : px / 96 * 914400 < 2 ^ 31) (hpt : px / 96 * 72 * 20 < 2 ^ 31) :
    px_to_emu px = ⌊px / 96 * 914400⌋ ∧
    px_to_twenties_of_pt px = ⌊px / 96 * 72 * 20⌋ ∧
    (∀ q : ℚ, q = px →
      px_to_emu q = px_to_emu px ∧ px_to_twenties_of_pt q = px_to_twenties_of_pt px) ∧
    px_to_twenties_of_pt (793707 / 1000) = 11905 := by
  refine ⟨?_, ?_, fun q hq => by rw [hq]; exact ⟨rfl, rfl⟩, ?_⟩
  · exact i32Sat_ratTrunc_of_nonneg _ (by positivity) hemu
  · exact i32Sat_ratTrunc_of_nonneg _ (by positivity) hpt
  · norm_num [px_to_twenties_of_pt, ratTrunc, i32Sat]

theorem C4_unit_conversions_witness :
    px_to_emu 720 = ⌊((720 : ℚ) / 96 * 914400)⌋ ∧
    px_to_twenties_of_pt (793707 / 1000) = 11905 := by
  have h := C4_unit_conversions 720 (by norm_num) (by norm_num) (by norm_num)
  exact ⟨h.1, h.2.2.2⟩

/-- Claim C5: page registration never touches the stored page geometry; the
geometry is set once, from the intrinsic pixel size of the first extracted
page, whatever the sizes of the later pages are; and finalization
substitutes the page-unit conversions of that first size for the two
page-size placeholder tokens of the content file. -/
theorem C5_page_geometry (st : DocxState) (p : PageInput) (ps : List PageInput) :
    (∀ (st₂ : DocxState) (qs : List PageInput), (processPages st₂ qs).size = st₂.size) ∧
    ∃ st' : DocxState,
      convert_pdf_register st (p :: ps) = .ok st' ∧
      st'.size = (p.width, p.height) ∧
      ∀ docContent : String,
        Docx.change_size st' docContent =
          replaceAll
            (replaceAll docContent "!WIDTH!" (toString (px_to_twenties_of_pt p.width)))
            "!HEIGHT!" (toString (px_to_twenties_of_pt p.height)) := by
  have hkeep : ∀ (st₂ : DocxState) (qs : List PageInput),
      (processPages st₂ qs).size = st₂.size := by
    intro st₂ qs
    rw [processPages_spec qs st₂]
  have hsize :
      (processPages { st with size := (p.width, p.height) } (p :: ps)).size =
        (p.width, p.height) :=
    hkeep _ _
  refine ⟨hkeep, _, rfl, hsize, fun docContent => ?_⟩
  simp only [Docx.change_size, hsize]

/-- Claim C6: registering a page appends exactly one page block whose
inline extent and shape extent are identical, both being the drawing-unit
conversion of the intrinsic pixel width and height of the page; in
particular a 720 by 1018 pixel page gets 6858000 by 9696450, the
drawing-unit conversions of 720 and 1018, in both elements. -/
theorem C6_extents_match (st : DocxState) (svgName pngName : String) (size : ℚ × ℚ) :
    (∃ b : PageBlock,
      (Docx.add_to_doc st svgName pngName size).doc = st.doc ++ [b] ∧
      b.inlineCx = b.shapeCx ∧ b.inlineCy = b.shapeCy ∧
      b.inlineCx = px_to_emu size.1 ∧ b.inlineCy = px_to_emu size.2) ∧
    px_to_emu 720 = 6858000 ∧ px_to_emu 1018 = 9696450 := by
  refine ⟨⟨_, rfl, rfl, rfl, rfl, rfl⟩, ?_, ?_⟩
  · norm_num [px_to_emu, ratTrunc, i32Sat]
  · norm_num [px_to_emu, ratTrunc, i32Sat]

/-- Claim C7: the extraction phase requests pages in strictly increasing
order starting at 1; the first page whose extraction reports a soft failure
(non-empty diagnostic stream) stops the loop, and the document is taken to
have the pages extracted before it, namely 1 through N - 1; if that leaves
zero usable pages the phase fails with the source-invalid kind
(`PDFInvalid`); a missing extraction tool is reported as the distinct
`InkscapeNotFound` kind, and any other spawn failure as `IoError`. -/
theorem C7_extraction_protocol :
    (∀ (n : ℕ) (rest : List PageResult),
      convert_pdf_extract (List.replicate n .ok ++ .softFail :: rest) =
        some (if n = 0 then .error .PDFInvalid else .ok (List.range' 1 n))) ∧
    (∀ n : ℕ, List.Chain' (· < ·) (List.range' 1 n)) ∧
    (∀ (n : ℕ) (rest : List PageResult),
      convert_pdf_extract (List.replicate n .ok ++ .notFound :: rest) =
        some (.error .InkscapeNotFound)) ∧
    (∀ (n : ℕ) (rest : List PageResult),
      convert_pdf_extract (List.replicate n .ok ++ .otherErr :: rest) =
        some (.error .IoError)) ∧
    Error.InkscapeNotFound ≠ Error.IoError ∧
    Error.InkscapeNotFound ≠ Error.PDFInvalid := by
  refine ⟨fun n rest => ?_, fun n => chain'_lt_range' n 1, fun n rest => ?_,
    fun n rest => ?_, by decide, by decide⟩
  · unfold convert_pdf_extract
    rw [extractLoop_ok_softFail n 1 rest]
    cases n with
    | zero => rfl
    | succ n =>
      rw [List.range'_succ]
      simp
  · unfold convert_pdf_extract
    rw [extractLoop_ok_notFound n 1 rest]
  · unfold convert_pdf_extract
    rw [extractLoop_ok_otherErr n 1 rest]

/-- Claim C8: each asset registration appends one self-closing relationship
declaration carrying the identifier formatted as rId followed by the
number, the OOXML image relationship type, and a target of the form media/
followed by the file name; the relationship string is emitted in exactly
insertion order, per page the vector entry immediately followed by the
raster entry. -/
theorem C8_relationship_emission (ps : List PageInput) :
    (processPages Docx.new ps).rels = relsSpec 0 ps ∧
    relsString ((processPages Docx.new ps).rels) = relsStringSpec 0 ps ∧
    (∀ (st : DocxState) (rid : ℤ) (filename : String),
      (Docx.add_relationship st rid filename).rels = st.rels ++ [⟨rid, filename⟩]) ∧
    ∀ (n : ℤ) (f : String),
      relString ⟨n, f⟩ =
        "<Relationship Id=\"rId" ++ toString n ++
          "\" Type=\"http://schemas.openxmlformats.org/officeDocument/2006/relationships/image\" Target=\"media/" ++
          f ++ "\"/>" := by
  have hrels : (processPages Docx.new ps).rels = relsSpec 0 ps := by
    rw [processPages_spec ps Docx.new]
    rfl
  refine ⟨hrels, ?_, fun st rid filename => rfl, fun n f => ?_⟩
  · rw [hrels]
    exact relsString_relsSpec ps 0
  · have hlit : ("<Relationship Id=\"" : String) ++ "rId" = "<Relationship Id=\"rId" := by
      decide
    simp only [relString, ridString, ← String.append_assoc, hlit]

/-- Claim C9: the entry point requires an argument vector of length 3 (the
program name plus exactly two positional arguments); for any other length
it prints the usage message and exits with the non-zero code -1, without the
outcome depending on the conversion at all; with correct arity, a failing
conversion makes it print exactly the one fixed diagnostic of the four that
belongs to the error kind and exit with the non-zero code -1. -/
theorem C9_cli (args : List String) (conv : Except Error Unit) :
    (args.length ≠ 3 →
      mainModel args conv = .usage (-1) (usageMsg (args.headD "")) ∧
      ∀ conv' : Except Error Unit, mainModel args conv' = mainModel args conv) ∧
    (args.length = 3 → ∀ e : Error, conv = .error e →
      mainModel args conv = .fail (-1) (errorMsg e) ∧
      errorMsg e ∈ ["An error occurred during I/O.",
        "Something went wrong while processing the images.",
        "Inkscape not found. Consider installing inkscape?", "Invalid PDF."]) ∧
    (-1 : ℤ) ≠ 0 := by
  refine ⟨fun h => ?_, fun h e he => ?_, by decide⟩
  · constructor
    · simp only [mainModel, if_pos h]
    · intro conv'
      simp only [mainModel, if_pos h]
  · subst he
    constructor
    · simp only [mainModel, if_neg (by omega : ¬ args.length ≠ 3)]
    · cases e <;> simp [errorMsg]

theorem C9_cli_witness :
    mainModel ["prog"] (.ok ()) = .usage (-1) (usageMsg "prog") ∧
    mainModel ["prog", "a.pdf", "b.docx"] (.error .PDFInvalid) =
      .fail (-1) "Invalid PDF." := by
  refine ⟨?_, ?_⟩
  · exact ((C9_cli ["prog"] (.ok ())).1 (by decide)).1
  · exact ((C9_cli ["prog", "a.pdf", "b.docx"] (.error .PDFInvalid)).2.1
      (by decide) .PDFInvalid rfl).1

/-- Claim C10: the raster sibling name of a vector asset is derived by
replacing every occurrence of the substring svg in the vector file name by
png — not only the extension — so the name svg1.svg, which contains svg in
its stem too, becomes png1.png; and when the file name is not valid Unicode
the derivation fails with the I/O error kind. -/
theorem C10_png_path (pre : String) :
    get_png_path pre none = .error .IoError ∧
    get_png_path "media" (some "svg1.svg") = .ok "media/png1.png" ∧
    ∀ f : String, get_png_path pre (some f) = .ok (pre ++ "/" ++ replaceAll f "svg" "png") := by
  refine ⟨rfl, congrArg Except.ok (by decide), fun f => rfl⟩

end Dyw
